import Mathlib

/-!
Verification of the fast bit-indexing subsystem of the `raztos-util` library:
the De Bruijn lowest/highest-set-bit engine (`src/algorithms/debruijin.rs`),
the capability probe and dispatcher (`src/cpu_features/opcodes.rs`,
`src/collections/fast_bitfield/mod.rs`) and the small and large fast
bitfields (`src/collections/fast_bitfield/{small,large}_bitfield.rs`).

Machine integers (`u8`/`u16`/`u32`/`u64`/`usize`) are embedded as `Nat`
with explicit `% 2^w` wherever the Rust code relies on wrapping, and the
bitwise complement `!x` on a w-bit word is embedded as `2^w - 1 - x`.
The verified build configuration is the 64-bit (`target_pointer_width =
"64"`), non-ARM target, so `usize` has 64 bits and the capability probe
evaluates to `false`.
-/

set_option maxRecDepth 8000

namespace RaztosUtil

/-- Number of bits of `usize` on the verified 64-bit target. -/
def USIZE_BITS : Nat := 64

/-- Bitwise complement `!v` of a `USIZE_BITS`-wide word (`v < 2 ^ 64`). -/
def usizeNot (v : Nat) : Nat := 2 ^ 64 - 1 - v

namespace Debruijin

/-- Embeds `DEBRUIJIN_NUMBER_8` from `src/algorithms/debruijin.rs`. -/
def DEBRUIJIN_NUMBER_8 : Nat := 0x17

/-- Embeds `DEBRUIJIN_INDICES_8` lookup table. -/
def DEBRUIJIN_INDICES_8 : List Nat := [0, 1, 2, 4, 7, 3, 6, 5]

/-- Embeds `DEBRUIJIN_SHIFT_8`. -/
def DEBRUIJIN_SHIFT_8 : Nat := 5

/-- Embeds `DEBRUIJIN_NUMBER_16`. -/
def DEBRUIJIN_NUMBER_16 : Nat := 0x09AF

/-- Embeds `DEBRUIJIN_INDICES_16` lookup table. -/
def DEBRUIJIN_INDICES_16 : List Nat :=
  [0, 1, 2, 5, 3, 9, 6, 11, 15, 4, 8, 10, 14, 7, 13, 12]

/-- Embeds `DEBRUIJIN_SHIFT_16`. -/
def DEBRUIJIN_SHIFT_16 : Nat := 12

/-- Embeds `DEBRUIJIN_NUMBER_32`. -/
def DEBRUIJIN_NUMBER_32 : Nat := 0x04653ADF

/-- Embeds `DEBRUIJIN_INDICES_32` lookup table. -/
def DEBRUIJIN_INDICES_32 : List Nat :=
  [0, 1, 2, 6, 3, 11, 7, 16, 4, 14, 12, 21, 8, 23, 17, 26,
   31, 5, 10, 15, 13, 20, 22, 25, 30, 9, 19, 24, 29, 18, 28, 27]

/-- Embeds `DEBRUIJIN_SHIFT_32`. -/
def DEBRUIJIN_SHIFT_32 : Nat := 27

/-- Embeds `DEBRUIJIN_NUMBER_64`. -/
def DEBRUIJIN_NUMBER_64 : Nat := 0x0218A392CD3D5DBF

/-- Embeds `DEBRUIJIN_INDICES_64` lookup table. -/
def DEBRUIJIN_INDICES_64 : List Nat :=
  [0, 1, 2, 7, 3, 13, 8, 19, 4, 25, 14, 28, 9, 34, 20, 40,
   5, 17, 26, 38, 15, 46, 29, 48, 10, 31, 35, 54, 21, 50, 41, 57,
   63, 6, 12, 18, 24, 27, 33, 39, 16, 37, 45, 47, 30, 53, 49, 56,
   62, 11, 23, 32, 36, 44, 52, 55, 61, 22, 43, 51, 60, 42, 59, 58]

/-- Embeds `DEBRUIJIN_SHIFT_64`. -/
def DEBRUIJIN_SHIFT_64 : Nat := 58

/-- Embeds `value & ((!value).wrapping_add(1))` at width `w`: the two's-complement
trick that isolates the lowest set bit of a `w`-bit value `v < 2 ^ w`. -/
def isolateLowestBit (w v : Nat) : Nat :=
  v &&& ((2 ^ w - 1 - v + 1) % 2 ^ w)

/-- Embeds `get_lowest_set_bit_8` from `src/algorithms/debruijin.rs`. -/
def get_lowest_set_bit_8 (v : Nat) : Nat :=
  DEBRUIJIN_INDICES_8.getD
    (((DEBRUIJIN_NUMBER_8 * isolateLowestBit 8 v) % 2 ^ 8) >>> DEBRUIJIN_SHIFT_8) 0

/-- Embeds `get_lowest_set_bit_16` from `src/algorithms/debruijin.rs`. -/
def get_lowest_set_bit_16 (v : Nat) : Nat :=
  DEBRUIJIN_INDICES_16.getD
    (((DEBRUIJIN_NUMBER_16 * isolateLowestBit 16 v) % 2 ^ 16) >>> DEBRUIJIN_SHIFT_16) 0

/-- Embeds `get_lowest_set_bit_32` from `src/algorithms/debruijin.rs`. -/
def get_lowest_set_bit_32 (v : Nat) : Nat :=
  DEBRUIJIN_INDICES_32.getD
    (((DEBRUIJIN_NUMBER_32 * isolateLowestBit 32 v) % 2 ^ 32) >>> DEBRUIJIN_SHIFT_32) 0

/-- Embeds `get_lowest_set_bit_64` from `src/algorithms/debruijin.rs`. -/
def get_lowest_set_bit_64 (v : Nat) : Nat :=
  DEBRUIJIN_INDICES_64.getD
    (((DEBRUIJIN_NUMBER_64 * isolateLowestBit 64 v) % 2 ^ 64) >>> DEBRUIJIN_SHIFT_64) 0

/-- Embeds `debruijin::get_lowest_set_bit`: on the 64-bit target the
`target_pointer_width = "64"` branch is taken. -/
def get_lowest_set_bit (v : Nat) : Nat := get_lowest_set_bit_64 v

/-- Bit reversal of a `w`-bit word, embedding `usize::reverse_bits`
(bit `i` of the input becomes bit `w - 1 - i` of the output). -/
def reverse_bits : Nat → Nat → Nat
  | 0, _ => 0
  | w + 1, v => v % 2 * 2 ^ w + reverse_bits w (v / 2)

/-- Embeds `debruijin::get_highest_set_bit`: reverse the bits, find the lowest set
bit, subtract from `bits_of - 1`. -/
def get_highest_set_bit (v : Nat) : Nat :=
  USIZE_BITS - get_lowest_set_bit (reverse_bits 64 v) - 1

end Debruijin

/-- The Rust unit-test helper `simple_lowest_set_bit`: a naive linear scan
over bit indices `0..64` returning the first set index, or 0 if none. -/
def simple_lowest_set_bit_aux (v : Nat) : Nat → Nat → Nat
  | 0, _ => 0
  | fuel + 1, i => if v.testBit i then i else simple_lowest_set_bit_aux v fuel (i + 1)

/-- Embeds `simple_lowest_set_bit` from the `debruijin.rs` unit tests. -/
def simple_lowest_set_bit (v : Nat) : Nat := simple_lowest_set_bit_aux v 64 0

/-- Embeds `opcodes::count_leading_zeros_exists`: `cfg!` evaluation on the verified
(non-ARM) target yields `false`. -/
def count_leading_zeros_exists : Bool := false

/-- Embeds `usize::trailing_zeros`, the hardware bit-scan primitive: the index of
the lowest set bit, or 64 (the bit width) when the input is 0. -/
def usize_trailing_zeros (v : Nat) : Nat :=
  if v = 0 then 64 else simple_lowest_set_bit v

/-- Embeds `usize::leading_zeros`, the hardware bit-scan primitive: the number of
leading zero bits, i.e. `63 - log2 v` for nonzero `v`, and 64 for 0. -/
def usize_leading_zeros (v : Nat) : Nat :=
  if v = 0 then 64 else 63 - Nat.log2 v

/-- Embeds `fast_bitfield::find_lowest_set_bit` (the dispatcher). -/
def find_lowest_set_bit (v : Nat) : Nat :=
  if count_leading_zeros_exists then usize_trailing_zeros v
  else Debruijin.get_lowest_set_bit v

/-- Embeds `fast_bitfield::find_highest_set_bit` (the dispatcher). -/
def find_highest_set_bit (v : Nat) : Nat :=
  if count_leading_zeros_exists then USIZE_BITS - 1 - usize_leading_zeros v
  else Debruijin.get_highest_set_bit v

/-! ### Generic bit-manipulation lemmas -/

theorem eq_zero_of_all_testBit_false {n : Nat}
    (h : ∀ i, n.testBit i = false) : n = 0 :=
  Nat.eq_of_testBit_eq fun i => by rw [h i, Nat.zero_testBit]

theorem land_two_pow_ne_zero_iff (a i : Nat) :
    a &&& 2 ^ i ≠ 0 ↔ a.testBit i = true := by
  constructor
  · intro h
    by_contra hb
    apply h
    apply eq_zero_of_all_testBit_false
    intro j
    rw [Nat.testBit_and, Nat.testBit_two_pow]
    rcases eq_or_ne i j with rfl | hij
    · simp only [Bool.and_eq_false_iff]
      left
      exact eq_false_of_ne_true hb
    · simp [hij]
  · intro h hz
    have : (a &&& 2 ^ i).testBit i = true := by
      rw [Nat.testBit_and, h, Nat.testBit_two_pow]
      simp
    rw [hz, Nat.zero_testBit] at this
    exact Bool.false_ne_true this

theorem lor_eq_zero_iff (a b : Nat) : a ||| b = 0 ↔ a = 0 ∧ b = 0 := by
  constructor
  · intro h
    constructor <;> apply eq_zero_of_all_testBit_false <;> intro i
    · have := congrArg (Nat.testBit · i) h
      simp only [Nat.testBit_or, Nat.zero_testBit, Bool.or_eq_false_iff] at this
      exact this.1
    · have := congrArg (Nat.testBit · i) h
      simp only [Nat.testBit_or, Nat.zero_testBit, Bool.or_eq_false_iff] at this
      exact this.2
  · rintro ⟨rfl, rfl⟩
    simp

theorem lor_lor_self (a b : Nat) : a ||| b ||| b = a ||| b := by
  rw [Nat.or_assoc, Nat.or_self]

theorem land_land_self (a b : Nat) : a &&& b &&& b = a &&& b := by
  rw [Nat.and_assoc, Nat.and_self]

theorem land_two_mul (a b : Nat) : 2 * a &&& 2 * b = 2 * (a &&& b) := by
  apply Nat.eq_of_testBit_eq
  intro i
  cases i with
  | zero =>
    simp [Nat.testBit_and, Nat.testBit_zero, Nat.mul_add_mod]
  | succ i =>
    rw [Nat.testBit_and, Nat.testBit_add_one, Nat.testBit_add_one,
      Nat.testBit_add_one, Nat.mul_div_cancel_left a (by omega),
      Nat.mul_div_cancel_left b (by omega),
      Nat.mul_div_cancel_left (a &&& b) (by omega), Nat.testBit_and]

/-- An odd `m < 2 ^ w` satisfies `m &&& (2 ^ w - m) = 1`. -/
theorem odd_land_two_pow_sub (w m : Nat) (hm : m % 2 = 1) (hlt : m < 2 ^ w) :
    m &&& (2 ^ w - m) = 1 := by
  have hm1 : 0 < m := by omega
  have hw : 0 < w := by
    by_contra h
    have : w = 0 := by omega
    subst this
    simp at hlt
    omega
  have hsub : 2 ^ w - m = 2 ^ w - (m - 1 + 1) := by omega
  have hx : m - 1 < 2 ^ w := by omega
  apply Nat.eq_of_testBit_eq
  intro i
  rw [Nat.testBit_and, hsub, Nat.testBit_two_pow_sub_succ hx]
  cases i with
  | zero =>
    have h1 : m.testBit 0 = true := by
      rw [Nat.testBit_zero]
      simp [hm]
    have h2 : (m - 1).testBit 0 = false := by
      rw [Nat.testBit_zero]
      simp
      omega
    rw [h1, h2]
    simp [hw, Nat.testBit_zero]
  | succ i =>
    have h3 : (m - 1).testBit (i + 1) = m.testBit (i + 1) := by
      rw [Nat.testBit_add_one, Nat.testBit_add_one]
      congr 1
      omega
    rw [h3]
    have h4 : (1 : Nat).testBit (i + 1) = false :=
      Nat.testBit_lt_two_pow (Nat.one_lt_pow (by omega) (by omega))
    rw [h4]
    cases m.testBit (i + 1) <;> simp

/-- The two's-complement trick isolates the lowest set bit: for odd `m` and
`2 ^ k * m < 2 ^ w`, `(2 ^ k * m) &&& (2 ^ w - 2 ^ k * m) = 2 ^ k`. -/
theorem land_two_pow_sub_eq (k : Nat) : ∀ w m : Nat, m % 2 = 1 →
    2 ^ k * m < 2 ^ w → 2 ^ k * m &&& (2 ^ w - 2 ^ k * m) = 2 ^ k := by
  induction k with
  | zero =>
    intro w m hm hlt
    simpa using odd_land_two_pow_sub w m hm (by simpa using hlt)
  | succ k ih =>
    intro w m hm hlt
    have hmpos : 0 < m := by omega
    have hvpos : 0 < 2 ^ (k + 1) * m :=
      Nat.mul_pos (Nat.pos_pow_of_pos _ (by omega)) hmpos
    have hw : 0 < w := by
      by_contra h
      have hw0 : w = 0 := by omega
      subst hw0
      simp at hlt
      have : 2 ≤ 2 ^ (k + 1) * m := by
        calc 2 ≤ 2 ^ (k + 1) := Nat.one_lt_two_pow_iff.mpr (by omega)
        _ = 2 ^ (k + 1) * 1 := by ring
        _ ≤ 2 ^ (k + 1) * m := Nat.mul_le_mul_left _ hmpos
      omega
    obtain ⟨w', rfl⟩ : ∃ w', w = w' + 1 := ⟨w - 1, by omega⟩
    have hsplit : 2 ^ (k + 1) * m = 2 * (2 ^ k * m) := by ring
    have hsplit2 : 2 ^ (w' + 1) - 2 ^ (k + 1) * m = 2 * (2 ^ w' - 2 ^ k * m) := by
      have h1 : 2 ^ (w' + 1) = 2 * 2 ^ w' := by ring
      rw [hsplit, h1, Nat.mul_sub]
    have hlt' : 2 ^ k * m < 2 ^ w' := by
      have h1 : 2 ^ (w' + 1) = 2 * 2 ^ w' := by ring
      rw [hsplit, h1] at hlt
      omega
    rw [hsplit2, hsplit, land_two_mul, ih w' m hm hlt']
    ring

/-- Every positive natural splits as an odd number times a power of two. -/
theorem exists_odd_factor (v : Nat) (hv : 0 < v) :
    ∃ k m, m % 2 = 1 ∧ v = 2 ^ k * m := by
  induction v using Nat.strong_induction_on with
  | _ v ih =>
    by_cases h : v % 2 = 1
    · exact ⟨0, v, h, by ring⟩
    · have h2 : v % 2 = 0 := by omega
      have hlt : v / 2 < v := Nat.div_lt_self hv (by omega)
      have hpos : 0 < v / 2 := by omega
      obtain ⟨k, m, hm, he⟩ := ih (v / 2) hlt hpos
      refine ⟨k + 1, m, hm, ?_⟩
      have : v = 2 * (v / 2) := by omega
      rw [this, he]
      ring

/-- Lemma: `isolateLowestBit` matches the mathematical lowest-set-bit at width `w`. -/
theorem isolateLowestBit_eq (w k m : Nat) (hm : m % 2 = 1)
    (hlt : 2 ^ k * m < 2 ^ w) : Debruijin.isolateLowestBit w (2 ^ k * m) = 2 ^ k := by
  have hmpos : 0 < m := by omega
  have hvpos : 0 < 2 ^ k * m := Nat.mul_pos (Nat.pos_pow_of_pos _ (by omega)) hmpos
  unfold Debruijin.isolateLowestBit
  have h1 : 2 ^ w - 1 - 2 ^ k * m + 1 = 2 ^ w - 2 ^ k * m := by omega
  have h2 : (2 ^ w - 2 ^ k * m) % 2 ^ w = 2 ^ w - 2 ^ k * m :=
    Nat.mod_eq_of_lt (by omega)
  rw [h1, h2]
  exact land_two_pow_sub_eq k w m hm hlt

theorem pow_lt_pow_iff_lt {k w : Nat} (h : 2 ^ k < 2 ^ w) : k < w :=
  (Nat.pow_lt_pow_iff_right (by omega)).mp h

theorem two_pow_le_of_mul_odd {k m w : Nat} (hm : m % 2 = 1)
    (hlt : 2 ^ k * m < 2 ^ w) : k < w := by
  apply pow_lt_pow_iff_lt
  calc 2 ^ k = 2 ^ k * 1 := by ring
  _ ≤ 2 ^ k * m := Nat.mul_le_mul_left _ (by omega)
  _ < 2 ^ w := hlt

/-! ### De Bruijn table correctness (finite checks) -/

theorem debruijin_table_8 : ∀ k, k < 8 → Debruijin.DEBRUIJIN_INDICES_8.getD
    (((Debruijin.DEBRUIJIN_NUMBER_8 * 2 ^ k) % 2 ^ 8) >>> Debruijin.DEBRUIJIN_SHIFT_8) 0 = k := by
  decide

theorem debruijin_table_16 : ∀ k, k < 16 → Debruijin.DEBRUIJIN_INDICES_16.getD
    (((Debruijin.DEBRUIJIN_NUMBER_16 * 2 ^ k) % 2 ^ 16) >>> Debruijin.DEBRUIJIN_SHIFT_16) 0 = k := by
  decide

theorem debruijin_table_32 : ∀ k, k < 32 → Debruijin.DEBRUIJIN_INDICES_32.getD
    (((Debruijin.DEBRUIJIN_NUMBER_32 * 2 ^ k) % 2 ^ 32) >>> Debruijin.DEBRUIJIN_SHIFT_32) 0 = k := by
  decide

theorem debruijin_table_64 : ∀ k, k < 64 → Debruijin.DEBRUIJIN_INDICES_64.getD
    (((Debruijin.DEBRUIJIN_NUMBER_64 * 2 ^ k) % 2 ^ 64) >>> Debruijin.DEBRUIJIN_SHIFT_64) 0 = k := by
  decide

/-! ### Width-specific lowest-set-bit correctness -/

theorem get_lowest_set_bit_8_eq (k m : Nat) (hm : m % 2 = 1)
    (hlt : 2 ^ k * m < 2 ^ 8) : Debruijin.get_lowest_set_bit_8 (2 ^ k * m) = k := by
  unfold Debruijin.get_lowest_set_bit_8
  rw [isolateLowestBit_eq 8 k m hm hlt]
  exact debruijin_table_8 k (two_pow_le_of_mul_odd hm hlt)

theorem get_lowest_set_bit_16_eq (k m : Nat) (hm : m % 2 = 1)
    (hlt : 2 ^ k * m < 2 ^ 16) : Debruijin.get_lowest_set_bit_16 (2 ^ k * m) = k := by
  unfold Debruijin.get_lowest_set_bit_16
  rw [isolateLowestBit_eq 16 k m hm hlt]
  exact debruijin_table_16 k (two_pow_le_of_mul_odd hm hlt)

theorem get_lowest_set_bit_32_eq (k m : Nat) (hm : m % 2 = 1)
    (hlt : 2 ^ k * m < 2 ^ 32) : Debruijin.get_lowest_set_bit_32 (2 ^ k * m) = k := by
  unfold Debruijin.get_lowest_set_bit_32
  rw [isolateLowestBit_eq 32 k m hm hlt]
  exact debruijin_table_32 k (two_pow_le_of_mul_odd hm hlt)

theorem get_lowest_set_bit_64_eq (k m : Nat) (hm : m % 2 = 1)
    (hlt : 2 ^ k * m < 2 ^ 64) : Debruijin.get_lowest_set_bit_64 (2 ^ k * m) = k := by
  unfold Debruijin.get_lowest_set_bit_64
  rw [isolateLowestBit_eq 64 k m hm hlt]
  exact debruijin_table_64 k (two_pow_le_of_mul_odd hm hlt)

/-- Bits of `2 ^ k * m` for odd `m`: bit `k` is set and all lower bits clear. -/
theorem testBit_two_pow_mul_odd {k m : Nat} (hm : m % 2 = 1) :
    (2 ^ k * m).testBit k = true ∧ ∀ i, i < k → (2 ^ k * m).testBit i = false := by
  constructor
  · rw [Nat.testBit_mul_pow_two]
    simp [Nat.testBit_zero, hm]
  · intro i hi
    rw [Nat.testBit_mul_pow_two]
    simp [Nat.not_le_of_lt hi]

/-- The minimum set bit is unique: two indices that are each set with all
lower bits clear must coincide. -/
theorem lowest_bit_unique {v p q : Nat} (hp : v.testBit p = true)
    (hpmin : ∀ i, i < p → v.testBit i = false) (hq : v.testBit q = true)
    (hqmin : ∀ i, i < q → v.testBit i = false) : p = q := by
  rcases Nat.lt_trichotomy p q with h | h | h
  · rw [hqmin p h] at hp
    exact absurd hp (by simp)
  · exact h
  · rw [hpmin q h] at hq
    exact absurd hq (by simp)

/-- Full specification of the 64-bit De Bruijn lowest-set-bit on nonzero
inputs: the result is the minimum set bit index. -/
theorem get_lowest_set_bit_64_spec (v : Nat) (h0 : 0 < v) (hv : v < 2 ^ 64) :
    Debruijin.get_lowest_set_bit_64 v < 64 ∧
    v.testBit (Debruijin.get_lowest_set_bit_64 v) = true ∧
    ∀ i, i < Debruijin.get_lowest_set_bit_64 v → v.testBit i = false := by
  obtain ⟨k, m, hm, rfl⟩ := exists_odd_factor v h0
  rw [get_lowest_set_bit_64_eq k m hm hv]
  obtain ⟨h1, h2⟩ := testBit_two_pow_mul_odd (k := k) hm
  exact ⟨two_pow_le_of_mul_odd hm hv, h1, h2⟩

/-- The naive linear scan finds the least set bit below the scan bound. -/
theorem simple_lowest_set_bit_aux_eq (v : Nat) : ∀ fuel i k, i ≤ k →
    k < i + fuel → v.testBit k = true →
    (∀ j, i ≤ j → j < k → v.testBit j = false) →
    simple_lowest_set_bit_aux v fuel i = k := by
  intro fuel
  induction fuel with
  | zero => intro i k h1 h2 _ _; omega
  | succ f ih =>
    intro i k h1 h2 hk hbelow
    unfold simple_lowest_set_bit_aux
    by_cases h : v.testBit i
    · have : i = k := by
        by_contra hne
        have hik : i < k := by omega
        rw [hbelow i (Nat.le_refl i) hik] at h
        exact Bool.false_ne_true h
      rw [if_pos h, this]
    · have hik : i < k := by
        rcases Nat.lt_or_ge i k with h' | h'
        · exact h'
        · have : i = k := by omega
          rw [this] at h
          exact absurd hk h
      rw [if_neg h]
      exact ih (i + 1) k hik (by omega) hk fun j hj1 hj2 => hbelow j (by omega) hj2

theorem simple_lowest_set_bit_eq (k m : Nat) (hm : m % 2 = 1)
    (hlt : 2 ^ k * m < 2 ^ 64) : simple_lowest_set_bit (2 ^ k * m) = k := by
  obtain ⟨h1, h2⟩ := testBit_two_pow_mul_odd (k := k) hm
  exact simple_lowest_set_bit_aux_eq (2 ^ k * m) 64 0 k (Nat.zero_le k)
    (by have := two_pow_le_of_mul_odd hm hlt; omega) h1
    fun j _ hj2 => h2 j hj2

/-! ### Bit reversal -/

theorem reverse_bits_lt (w : Nat) : ∀ v, Debruijin.reverse_bits w v < 2 ^ w := by
  induction w with
  | zero => intro v; simp [Debruijin.reverse_bits]
  | succ w ih =>
    intro v
    unfold Debruijin.reverse_bits
    have h1 : v % 2 ≤ 1 := by omega
    have h2 : v % 2 * 2 ^ w ≤ 2 ^ w := by
      calc v % 2 * 2 ^ w ≤ 1 * 2 ^ w := Nat.mul_le_mul_right _ h1
      _ = 2 ^ w := by ring
    have h3 := ih (v / 2)
    have h4 : 2 ^ (w + 1) = 2 ^ w + 2 ^ w := by ring
    omega

theorem reverse_bits_testBit (w : Nat) : ∀ v i, i < w →
    (Debruijin.reverse_bits w v).testBit i = v.testBit (w - 1 - i) := by
  induction w with
  | zero => intro v i hi; omega
  | succ w ih =>
    intro v i hi
    unfold Debruijin.reverse_bits
    have hrev := reverse_bits_lt w (v / 2)
    have hcomm : v % 2 * 2 ^ w = 2 ^ w * (v % 2) := Nat.mul_comm _ _
    rw [hcomm, Nat.testBit_mul_pow_two_add (v % 2) hrev i]
    rcases Nat.lt_or_ge i w with h | h
    · rw [if_pos h, ih (v / 2) i h, Nat.testBit_div_two]
      congr 1
      omega
    · have hiw : i = w := by omega
      subst hiw
      rw [if_neg (by omega), Nat.sub_self]
      have : (v % 2).testBit 0 = v.testBit 0 := by
        rw [Nat.testBit_zero, Nat.testBit_zero,
          Nat.mod_mod_of_dvd v (dvd_refl 2)]
      rw [this]
      congr 1
      omega

/-- Specification of the De Bruijn highest-set-bit on nonzero 64-bit inputs:
the result is the maximum set bit index. -/
theorem get_highest_set_bit_spec (v : Nat) (h0 : 0 < v) (hv : v < 2 ^ 64) :
    Debruijin.get_highest_set_bit v < 64 ∧
    v.testBit (Debruijin.get_highest_set_bit v) = true ∧
    ∀ i, Debruijin.get_highest_set_bit v < i → v.testBit i = false := by
  set r := Debruijin.reverse_bits 64 v with hr
  obtain ⟨k, m, hm, hvkm⟩ := exists_odd_factor v h0
  have hk : k < 64 := two_pow_le_of_mul_odd hm (hvkm ▸ hv)
  have hbit : v.testBit k = true := by
    rw [hvkm]; exact (testBit_two_pow_mul_odd hm).1
  have hrbit : r.testBit (63 - k) = true := by
    rw [hr, reverse_bits_testBit 64 v (63 - k) (by omega)]
    have : 64 - 1 - (63 - k) = k := by omega
    rw [this]; exact hbit
  have hrpos : 0 < r := by
    rcases Nat.eq_zero_or_pos r with h | h
    · rw [h, Nat.zero_testBit] at hrbit
      exact absurd hrbit (by simp)
    · exact h
  have hrlt : r < 2 ^ 64 := reverse_bits_lt 64 v
  obtain ⟨hj64, hjbit, hjmin⟩ := get_lowest_set_bit_64_spec r hrpos hrlt
  set j := Debruijin.get_lowest_set_bit_64 r with hj
  have hres : Debruijin.get_highest_set_bit v = 63 - j := by
    unfold Debruijin.get_highest_set_bit
    rw [← hr]
    unfold Debruijin.get_lowest_set_bit
    rw [← hj]
    unfold USIZE_BITS
    omega
  rw [hres]
  refine ⟨by omega, ?_, ?_⟩
  · have := hjbit
    rw [hr, reverse_bits_testBit 64 v j (by omega)] at this
    have heq : 64 - 1 - j = 63 - j := by omega
    rw [heq] at this
    exact this
  · intro i hi
    rcases Nat.lt_or_ge i 64 with h64 | h64
    · have hlow : (63 : Nat) - i < j := by omega
      have := hjmin (63 - i) hlow
      rw [hr, reverse_bits_testBit 64 v (63 - i) (by omega)] at this
      have heq : 64 - 1 - (63 - i) = i := by omega
      rw [heq] at this
      exact this
    · exact Nat.testBit_lt_two_pow
        (Nat.lt_of_lt_of_le hv (Nat.pow_le_pow_right (by omega) h64))

/-- Lemma: `Nat.log2` computes the maximum set bit index of a nonzero value. -/
theorem log2_testBit (v : Nat) (h0 : 0 < v) :
    v.testBit (Nat.log2 v) = true ∧ ∀ i, Nat.log2 v < i → v.testBit i = false := by
  have h1 : 2 ^ Nat.log2 v ≤ v := Nat.log2_self_le (by omega)
  have h2 : v < 2 ^ (Nat.log2 v + 1) := Nat.lt_log2_self
  constructor
  · rw [Nat.testBit_to_div_mod]
    have hdiv : v / 2 ^ Nat.log2 v = 1 := by
      apply Nat.div_eq_of_lt_le
      · simpa using h1
      · calc v < 2 ^ (Nat.log2 v + 1) := h2
        _ = 2 * 2 ^ Nat.log2 v := by ring
    simp [hdiv]
  · intro i hi
    exact Nat.testBit_lt_two_pow
      (Nat.lt_of_lt_of_le h2 (Nat.pow_le_pow_right (by omega) (by omega)))

/-- The maximum set bit is unique. -/
theorem highest_bit_unique {v p q : Nat} (hp : v.testBit p = true)
    (hpmax : ∀ i, p < i → v.testBit i = false) (hq : v.testBit q = true)
    (hqmax : ∀ i, q < i → v.testBit i = false) : p = q := by
  rcases Nat.lt_trichotomy p q with h | h | h
  · rw [hpmax q h] at hq
    exact absurd hq (by simp)
  · exact h
  · rw [hqmax p h] at hp
    exact absurd hp (by simp)

/-! ### Claims C3, C4, C5: the De Bruijn engine and the dispatcher -/

/-- C3: for every 8-bit and every 16-bit value the De Bruijn
multiply-shift-lookup equals the naive linear scan (which returns 0 on 0 by
convention), and the 32-bit and 64-bit functions map every isolated bit
`1 << p` to `p`. -/
theorem spec_C3 :
    (∀ v, v < 2 ^ 8 → Debruijin.get_lowest_set_bit_8 v = simple_lowest_set_bit v)
    ∧ (∀ v, v < 2 ^ 16 → Debruijin.get_lowest_set_bit_16 v = simple_lowest_set_bit v)
    ∧ (∀ p, p < 32 → Debruijin.get_lowest_set_bit_32 (2 ^ p) = p)
    ∧ (∀ p, p < 64 → Debruijin.get_lowest_set_bit_64 (2 ^ p) = p) := by
  refine ⟨?_, ?_, ?_, ?_⟩
  · intro v hv
    rcases Nat.eq_zero_or_pos v with rfl | hpos
    · decide
    · obtain ⟨k, m, hm, rfl⟩ := exists_odd_factor v hpos
      rw [get_lowest_set_bit_8_eq k m hm hv,
        simple_lowest_set_bit_eq k m hm (Nat.lt_trans hv (by norm_num))]
  · intro v hv
    rcases Nat.eq_zero_or_pos v with rfl | hpos
    · decide
    · obtain ⟨k, m, hm, rfl⟩ := exists_odd_factor v hpos
      rw [get_lowest_set_bit_16_eq k m hm hv,
        simple_lowest_set_bit_eq k m hm (Nat.lt_trans hv (by norm_num))]
  · intro p hp
    have h := get_lowest_set_bit_32_eq p 1 rfl
      (by rw [Nat.mul_one]; exact Nat.pow_lt_pow_right (by omega) hp)
    rwa [Nat.mul_one] at h
  · intro p hp
    have h := get_lowest_set_bit_64_eq p 1 rfl
      (by rw [Nat.mul_one]; exact Nat.pow_lt_pow_right (by omega) hp)
    rwa [Nat.mul_one] at h

/-- Witness for C3 at concrete inputs. -/
theorem spec_C3_witness :
    Debruijin.get_lowest_set_bit_8 0xA8 = simple_lowest_set_bit 0xA8
    ∧ Debruijin.get_lowest_set_bit_16 0x9AF0 = simple_lowest_set_bit 0x9AF0
    ∧ Debruijin.get_lowest_set_bit_32 (2 ^ 31) = 31
    ∧ Debruijin.get_lowest_set_bit_64 (2 ^ 63) = 63 :=
  ⟨spec_C3.1 0xA8 (by decide), spec_C3.2.1 0x9AF0 (by decide),
   spec_C3.2.2.1 31 (by decide), spec_C3.2.2.2 63 (by decide)⟩

/-- C4 fails at input 0: the hardware path (`trailing_zeros`) yields 64 on
input 0 while the De Bruijn fallback yields 0, so the two paths of
`find_lowest_set_bit` do not return the same result for every value and do
not both return 0 on 0. -/
theorem spec_C4_counterexample :
    usize_trailing_zeros 0 = 64 ∧ Debruijin.get_lowest_set_bit 0 = 0 ∧
    usize_trailing_zeros 0 ≠ Debruijin.get_lowest_set_bit 0 := by
  constructor
  · decide
  constructor
  · decide
  · intro h
    have h1 : usize_trailing_zeros 0 = 64 := by decide
    have h2 : Debruijin.get_lowest_set_bit 0 = 0 := by decide
    rw [h1, h2] at h
    exact absurd h (by omega)

/-- C4 (amended): on every nonzero `usize` value, the hardware path
(`trailing_zeros` for lowest, `WORD_BITS - 1 - leading_zeros` for highest)
agrees with the De Bruijn fallback path taken by `find_lowest_set_bit` /
`find_highest_set_bit`; at input 0 the paths differ. -/
theorem spec_C4 (v : Nat) (h0 : 0 < v) (hv : v < 2 ^ 64) :
    usize_trailing_zeros v = find_lowest_set_bit v ∧
    USIZE_BITS - 1 - usize_leading_zeros v = find_highest_set_bit v := by
  have hne : v ≠ 0 := by omega
  have hfind_low : find_lowest_set_bit v = Debruijin.get_lowest_set_bit v := by
    simp [find_lowest_set_bit, count_leading_zeros_exists]
  have hfind_high : find_highest_set_bit v = Debruijin.get_highest_set_bit v := by
    simp [find_highest_set_bit, count_leading_zeros_exists]
  constructor
  · rw [hfind_low]
    obtain ⟨k, m, hm, rfl⟩ := exists_odd_factor v h0
    unfold usize_trailing_zeros
    rw [if_neg hne, simple_lowest_set_bit_eq k m hm hv]
    exact (get_lowest_set_bit_64_eq k m hm hv).symm
  · rw [hfind_high]
    have hlog_lt : Nat.log2 v < 64 := by
      apply pow_lt_pow_iff_lt
      exact Nat.lt_of_le_of_lt (Nat.log2_self_le hne) hv
    have hlhs : USIZE_BITS - 1 - usize_leading_zeros v = Nat.log2 v := by
      unfold usize_leading_zeros USIZE_BITS
      rw [if_neg hne]
      omega
    rw [hlhs]
    obtain ⟨hlog1, hlog2⟩ := log2_testBit v h0
    obtain ⟨_, hh1, hh2⟩ := get_highest_set_bit_spec v h0 hv
    exact highest_bit_unique hlog1 hlog2 hh1 hh2

/-- Witness for C4 at a concrete nonzero input. -/
theorem spec_C4_witness :
    usize_trailing_zeros 40 = find_lowest_set_bit 40 ∧
    USIZE_BITS - 1 - usize_leading_zeros 40 = find_highest_set_bit 40 :=
  spec_C4 40 (by decide) (by decide)

/-- C5: the De Bruijn highest-set-bit computes
`W - 1 - lowest_set_bit(reverse_bits(value))` for every value, but on input
0 it returns 63 (= `W - 1`), not the 0 promised by its documentation: the
claim is right about the intent, the code diverges at 0. -/
theorem spec_C5 :
    (∀ v, Debruijin.get_highest_set_bit v =
      USIZE_BITS - 1 - Debruijin.get_lowest_set_bit (Debruijin.reverse_bits 64 v))
    ∧ Debruijin.get_highest_set_bit 0 = 63 := by
  constructor
  · intro v
    unfold Debruijin.get_highest_set_bit USIZE_BITS
    omega
  · decide

/-! ### The small bitfield (`src/collections/fast_bitfield/small_bitfield.rs`) -/

/-- Embeds `SmallBitField`: one `usize` word of bit storage. -/
structure SmallBitField where
  bitfield : Nat

namespace SmallBitField

/-- Embeds `SMALL_BIT_FIELD_BIT_SIZE = size_of::<usize>() * 8`. -/
def SMALL_BIT_FIELD_BIT_SIZE : Nat := 64

/-- Embeds `SmallBitField::new`. -/
def new : SmallBitField := ⟨0⟩

/-- Embeds `SmallBitField::get_number_of_bits`. -/
def get_number_of_bits : Nat := SMALL_BIT_FIELD_BIT_SIZE

/-- Embeds `SmallBitField::set_field`. -/
def set_field (s : SmallBitField) (field : Nat) : SmallBitField :=
  ⟨s.bitfield ||| field⟩

/-- Embeds `SmallBitField::clear_field`. -/
def clear_field (s : SmallBitField) (field : Nat) : SmallBitField :=
  ⟨s.bitfield &&& usizeNot field⟩

/-- Embeds `SmallBitField::set_bit` (checked: out-of-range indices are no-ops). -/
def set_bit (s : SmallBitField) (index : Nat) : SmallBitField :=
  if index < SMALL_BIT_FIELD_BIT_SIZE then ⟨s.bitfield ||| (1 <<< index)⟩ else s

/-- Embeds `SmallBitField::clear_bit` (checked). -/
def clear_bit (s : SmallBitField) (index : Nat) : SmallBitField :=
  if index < SMALL_BIT_FIELD_BIT_SIZE then ⟨s.bitfield &&& usizeNot (1 <<< index)⟩ else s

/-- Embeds `SmallBitField::set_bit_unchecked` (caller guarantees `index < 64`). -/
def set_bit_unchecked (s : SmallBitField) (index : Nat) : SmallBitField :=
  ⟨s.bitfield ||| (1 <<< index)⟩

/-- Embeds `SmallBitField::clear_bit_unchecked` (caller guarantees `index < 64`). -/
def clear_bit_unchecked (s : SmallBitField) (index : Nat) : SmallBitField :=
  ⟨s.bitfield &&& usizeNot (1 <<< index)⟩

/-- Embeds `SmallBitField::is_empty`. -/
def is_empty (s : SmallBitField) : Bool := s.bitfield == 0

/-- Embeds `SmallBitField::get_lowest_set_bit_unchecked`. -/
def get_lowest_set_bit_unchecked (s : SmallBitField) : Nat :=
  find_lowest_set_bit s.bitfield

/-- Embeds `SmallBitField::get_highest_set_bit_unchecked`. -/
def get_highest_set_bit_unchecked (s : SmallBitField) : Nat :=
  find_highest_set_bit s.bitfield

/-- Embeds `SmallBitField::get_lowest_set_bit` (checked: `None` when empty). -/
def get_lowest_set_bit (s : SmallBitField) : Option Nat :=
  if s.is_empty then none else some s.get_lowest_set_bit_unchecked

/-- Embeds `SmallBitField::get_highest_set_bit` (checked: `None` when empty). -/
def get_highest_set_bit (s : SmallBitField) : Option Nat :=
  if s.is_empty then none else some s.get_highest_set_bit_unchecked

/-- Embeds `SmallBitField::test_bit_unchecked`. -/
def test_bit_unchecked (s : SmallBitField) (index : Nat) : Bool :=
  (s.bitfield &&& (1 <<< index)) != 0

/-- Embeds `SmallBitField::test_bit` (checked: `None` for invalid indices). -/
def test_bit (s : SmallBitField) (index : Nat) : Option Bool :=
  if index < SMALL_BIT_FIELD_BIT_SIZE then some (s.test_bit_unchecked index) else none

end SmallBitField

/-! ### The large bitfield (`src/collections/fast_bitfield/large_bitfield.rs`) -/

/-- Embeds `LargeBitField`: a `layer_cache` word plus `[usize; 64]` group storage;
the group array is embedded as a function (only indices `0..64` are ever
touched by the operations). -/
structure LargeBitField where
  layer_cache : Nat
  bitfield : Nat → Nat

namespace LargeBitField

/-- Embeds `LARGE_BIT_FIELD_GROUP_COUNT = size_of::<usize>() * 8`. -/
def LARGE_BIT_FIELD_GROUP_COUNT : Nat := 64

/-- Embeds `LARGE_BIT_FIELD_BIT_SIZE = GROUP_COUNT * GROUP_COUNT`. -/
def LARGE_BIT_FIELD_BIT_SIZE : Nat :=
  LARGE_BIT_FIELD_GROUP_COUNT * LARGE_BIT_FIELD_GROUP_COUNT

/-- Embeds `LargeBitField::new`. -/
def new : LargeBitField := ⟨0, fun _ => 0⟩

/-- Embeds `LargeBitField::get_number_of_bits`. -/
def get_number_of_bits : Nat := LARGE_BIT_FIELD_BIT_SIZE

/-- Embeds `LargeBitField::test_group_unchecked`. -/
def test_group_unchecked (s : LargeBitField) (group_index : Nat) : Bool :=
  (s.layer_cache &&& (1 <<< group_index)) != 0

/-- Embeds `LargeBitField::test_group` (checked). -/
def test_group (s : LargeBitField) (group_index : Nat) : Option Bool :=
  if group_index < LARGE_BIT_FIELD_GROUP_COUNT then
    some (s.test_group_unchecked group_index)
  else none

/-- Embeds `LargeBitField::set_group_unchecked`: or the word into the group and
or the branch-free update `(1 << group) * (field != 0)` into the cache. -/
def set_group_unchecked (s : LargeBitField) (group_index group_field : Nat) :
    LargeBitField :=
  let field_has_values : Nat := if group_field ≠ 0 then 1 else 0
  let layer_cache_update := (1 <<< group_index) * field_has_values
  { layer_cache := s.layer_cache ||| layer_cache_update,
    bitfield := fun j =>
      if j = group_index then s.bitfield j ||| group_field else s.bitfield j }

/-- Embeds `LargeBitField::set_group` (checked). -/
def set_group (s : LargeBitField) (group_index group_field : Nat) : LargeBitField :=
  if group_index < LARGE_BIT_FIELD_GROUP_COUNT then
    s.set_group_unchecked group_index group_field
  else s

/-- Embeds `LargeBitField::clear_group_unchecked`: mask the word out of the group,
then clear the cache bit iff the group word became zero (branch-free). -/
def clear_group_unchecked (s : LargeBitField) (group_index group_field : Nat) :
    LargeBitField :=
  let subfield := s.bitfield group_index &&& usizeNot group_field
  let is_clear : Nat := if subfield = 0 then 1 else 0
  let layer_cache_update := (1 <<< group_index) * is_clear
  { layer_cache := s.layer_cache &&& usizeNot layer_cache_update,
    bitfield := fun j =>
      if j = group_index then s.bitfield j &&& usizeNot group_field else s.bitfield j }

/-- Embeds `LargeBitField::clear_group` (checked). -/
def clear_group (s : LargeBitField) (group_index group_field : Nat) : LargeBitField :=
  if group_index < LARGE_BIT_FIELD_GROUP_COUNT then
    s.clear_group_unchecked group_index group_field
  else s

/-- The loop of `LargeBitField::set_field`: apply `set_group_unchecked` to
groups `0, 1, …, n-1` in order. -/
def set_field_aux (s : LargeBitField) (values : Nat → Nat) : Nat → LargeBitField
  | 0 => s
  | n + 1 => (set_field_aux s values n).set_group_unchecked n (values n)

/-- Embeds `LargeBitField::set_field`. -/
def set_field (s : LargeBitField) (values : Nat → Nat) : LargeBitField :=
  set_field_aux s values LARGE_BIT_FIELD_GROUP_COUNT

/-- The loop of `LargeBitField::clear_field`. -/
def clear_field_aux (s : LargeBitField) (values : Nat → Nat) : Nat → LargeBitField
  | 0 => s
  | n + 1 => (clear_field_aux s values n).clear_group_unchecked n (values n)

/-- Embeds `LargeBitField::clear_field`. -/
def clear_field (s : LargeBitField) (values : Nat → Nat) : LargeBitField :=
  clear_field_aux s values LARGE_BIT_FIELD_GROUP_COUNT

/-- Embeds `LargeBitField::set_bit` (checked: `get_mut` fails and the call is a
no-op when `index / 64 ≥ 64`). -/
def set_bit (s : LargeBitField) (index : Nat) : LargeBitField :=
  let top_layer := index / LARGE_BIT_FIELD_GROUP_COUNT
  let bottom_layer := index % LARGE_BIT_FIELD_GROUP_COUNT
  if top_layer < LARGE_BIT_FIELD_GROUP_COUNT then
    { layer_cache := s.layer_cache ||| (1 <<< top_layer),
      bitfield := fun j =>
        if j = top_layer then s.bitfield j ||| (1 <<< bottom_layer) else s.bitfield j }
  else s

/-- Embeds `LargeBitField::clear_bit` (checked): clear the bit, then clear the
cache bit only if the group word became exactly zero. -/
def clear_bit (s : LargeBitField) (index : Nat) : LargeBitField :=
  let top_layer := index / LARGE_BIT_FIELD_GROUP_COUNT
  let bottom_layer := index % LARGE_BIT_FIELD_GROUP_COUNT
  if top_layer < LARGE_BIT_FIELD_GROUP_COUNT then
    let sub_field := s.bitfield top_layer &&& usizeNot (1 <<< bottom_layer)
    { layer_cache :=
        if sub_field = 0 then s.layer_cache &&& usizeNot (1 <<< top_layer)
        else s.layer_cache,
      bitfield := fun j => if j = top_layer then sub_field else s.bitfield j }
  else s

/-- Embeds `LargeBitField::set_bit_unchecked` (caller guarantees `index < 4096`). -/
def set_bit_unchecked (s : LargeBitField) (index : Nat) : LargeBitField :=
  let top_layer := index / LARGE_BIT_FIELD_GROUP_COUNT
  let bottom_layer := index % LARGE_BIT_FIELD_GROUP_COUNT
  { layer_cache := s.layer_cache ||| (1 <<< top_layer),
    bitfield := fun j =>
      if j = top_layer then s.bitfield j ||| (1 <<< bottom_layer) else s.bitfield j }

/-- Embeds `LargeBitField::clear_bit_unchecked` (branch-free layer-cache update;
caller guarantees `index < 4096`). -/
def clear_bit_unchecked (s : LargeBitField) (index : Nat) : LargeBitField :=
  let top_layer := index / LARGE_BIT_FIELD_GROUP_COUNT
  let bottom_layer := index % LARGE_BIT_FIELD_GROUP_COUNT
  let sub_field := s.bitfield top_layer &&& usizeNot (1 <<< bottom_layer)
  let is_clear : Nat := if sub_field = 0 then 1 else 0
  { layer_cache := s.layer_cache &&& usizeNot ((1 <<< top_layer) * is_clear),
    bitfield := fun j => if j = top_layer then sub_field else s.bitfield j }

/-- Embeds `LargeBitField::is_empty`. -/
def is_empty (s : LargeBitField) : Bool := s.layer_cache == 0

/-- Embeds `LargeBitField::get_lowest_set_bit_unchecked`: scan the layer cache,
then the selected group, and combine. -/
def get_lowest_set_bit_unchecked (s : LargeBitField) : Nat :=
  let level := find_lowest_set_bit s.layer_cache
  level * LARGE_BIT_FIELD_GROUP_COUNT + find_lowest_set_bit (s.bitfield level)

/-- Embeds `LargeBitField::get_highest_set_bit_unchecked`. -/
def get_highest_set_bit_unchecked (s : LargeBitField) : Nat :=
  let level := find_highest_set_bit s.layer_cache
  level * LARGE_BIT_FIELD_GROUP_COUNT + find_highest_set_bit (s.bitfield level)

/-- Embeds `LargeBitField::get_lowest_set_bit` (checked: `None` when empty). -/
def get_lowest_set_bit (s : LargeBitField) : Option Nat :=
  if s.is_empty then none else some s.get_lowest_set_bit_unchecked

/-- Embeds `LargeBitField::get_highest_set_bit` (checked: `None` when empty). -/
def get_highest_set_bit (s : LargeBitField) : Option Nat :=
  if s.is_empty then none else some s.get_highest_set_bit_unchecked

/-- Embeds `LargeBitField::test_bit_unchecked`. -/
def test_bit_unchecked (s : LargeBitField) (index : Nat) : Bool :=
  (s.bitfield (index / LARGE_BIT_FIELD_GROUP_COUNT) &&&
    (1 <<< (index % LARGE_BIT_FIELD_GROUP_COUNT))) != 0

/-- Embeds `LargeBitField::test_bit` (checked: `None` for invalid indices). -/
def test_bit (s : LargeBitField) (index : Nat) : Option Bool :=
  if index < LARGE_BIT_FIELD_BIT_SIZE then some (s.test_bit_unchecked index) else none

/-- The layer-cache invariant of §3 of the specification: cache bit `g` is
set iff group `g` is non-zero. -/
def Inv (s : LargeBitField) : Prop :=
  ∀ g, g < 64 → (s.layer_cache.testBit g = true ↔ s.bitfield g ≠ 0)

/-- Well-formedness: every stored word fits in a `usize`. -/
def WF (s : LargeBitField) : Prop :=
  s.layer_cache < 2 ^ 64 ∧ ∀ g, g < 64 → s.bitfield g < 2 ^ 64

/-- States reachable from `new` by the public mutating operations (checked
with any argument, or unchecked with in-range arguments; word arguments are
`usize` values, hence `< 2 ^ 64`). -/
inductive Reachable : LargeBitField → Prop where
  | new : Reachable new
  | set_bit (s : LargeBitField) (i : Nat) : Reachable s → Reachable (s.set_bit i)
  | clear_bit (s : LargeBitField) (i : Nat) : Reachable s → Reachable (s.clear_bit i)
  | set_bit_unchecked (s : LargeBitField) (i : Nat) : Reachable s →
      i < LARGE_BIT_FIELD_BIT_SIZE → Reachable (s.set_bit_unchecked i)
  | clear_bit_unchecked (s : LargeBitField) (i : Nat) : Reachable s →
      i < LARGE_BIT_FIELD_BIT_SIZE → Reachable (s.clear_bit_unchecked i)
  | set_group (s : LargeBitField) (g f : Nat) : Reachable s → f < 2 ^ 64 →
      Reachable (s.set_group g f)
  | clear_group (s : LargeBitField) (g f : Nat) : Reachable s → f < 2 ^ 64 →
      Reachable (s.clear_group g f)
  | set_group_unchecked (s : LargeBitField) (g f : Nat) : Reachable s → g < 64 →
      f < 2 ^ 64 → Reachable (s.set_group_unchecked g f)
  | clear_group_unchecked (s : LargeBitField) (g f : Nat) : Reachable s → g < 64 →
      f < 2 ^ 64 → Reachable (s.clear_group_unchecked g f)
  | set_field (s : LargeBitField) (values : Nat → Nat) : Reachable s →
      (∀ j, values j < 2 ^ 64) → Reachable (s.set_field values)
  | clear_field (s : LargeBitField) (values : Nat → Nat) : Reachable s →
      (∀ j, values j < 2 ^ 64) → Reachable (s.clear_field values)

end LargeBitField

/-- Componentwise characterization of state equality. -/
theorem LargeBitField.large_state_eq {s t : LargeBitField}
    (h1 : s.layer_cache = t.layer_cache) (h2 : ∀ j, s.bitfield j = t.bitfield j) :
    s = t := by
  cases s
  cases t
  simp only [LargeBitField.mk.injEq]
  exact ⟨h1, funext h2⟩

theorem SmallBitField.small_state_eq {s t : SmallBitField}
    (h : s.bitfield = t.bitfield) : s = t := by
  cases s
  cases t
  simpa using h

/-! ### Helper lemmas about word-level operations -/

theorem usizeNot_lt (v : Nat) : usizeNot v < 2 ^ 64 := by
  unfold usizeNot
  omega

theorem usizeNot_testBit (v : Nat) (hv : v < 2 ^ 64) (i : Nat) :
    (usizeNot v).testBit i = (decide (i < 64) && !v.testBit i) := by
  have h : usizeNot v = 2 ^ 64 - (v + 1) := by
    unfold usizeNot
    omega
  rw [h, Nat.testBit_two_pow_sub_succ hv]

theorem land_two_pow_bne_zero (a p : Nat) : ((a &&& 2 ^ p) != 0) = a.testBit p := by
  cases h : a.testBit p
  · have h0 : a &&& 2 ^ p = 0 := by
      by_contra hne
      rw [(land_two_pow_ne_zero_iff a p).mp hne] at h
      exact absurd h (by simp)
    simp [h0]
  · have := (land_two_pow_ne_zero_iff a p).mpr h
    simp [bne_iff_ne, this]

theorem lor_two_pow_ne_zero (a p : Nat) : a ||| 2 ^ p ≠ 0 := by
  intro h
  have := (lor_eq_zero_iff a (2 ^ p)).mp h
  have hpos : 0 < 2 ^ p := Nat.pos_pow_of_pos _ (by omega)
  omega

theorem testBit_ne_zero {a i : Nat} (h : a.testBit i = true) : a ≠ 0 := by
  intro hz
  rw [hz, Nat.zero_testBit] at h
  exact absurd h (by simp)

theorem land_usizeNot_two_pow_testBit (a p q : Nat) (hp : p < 64) (hq : q < 64) :
    (a &&& usizeNot (2 ^ p)).testBit q = if q = p then false else a.testBit q := by
  have hplt : 2 ^ p < 2 ^ 64 := Nat.pow_lt_pow_right (by omega) hp
  rw [Nat.testBit_and, usizeNot_testBit (2 ^ p) hplt q, Nat.testBit_two_pow]
  rcases eq_or_ne q p with rfl | hne
  · simp
  · simp only [if_neg hne]
    simp [hq, Ne.symm hne]

/-! ### The checked and unchecked mutators agree on in-range inputs -/

theorem LargeBitField.set_bit_unchecked_eq (s : LargeBitField) (i : Nat)
    (hi : i < LARGE_BIT_FIELD_BIT_SIZE) : s.set_bit_unchecked i = s.set_bit i := by
  have h : i / LARGE_BIT_FIELD_GROUP_COUNT < LARGE_BIT_FIELD_GROUP_COUNT := by
    unfold LARGE_BIT_FIELD_GROUP_COUNT
    unfold LARGE_BIT_FIELD_BIT_SIZE LARGE_BIT_FIELD_GROUP_COUNT at hi
    omega
  simp [LargeBitField.set_bit, LargeBitField.set_bit_unchecked, h]

theorem LargeBitField.clear_bit_unchecked_eq (s : LargeBitField) (i : Nat)
    (hi : i < LARGE_BIT_FIELD_BIT_SIZE) (hlc : s.layer_cache < 2 ^ 64) :
    s.clear_bit_unchecked i = s.clear_bit i := by
  have h : i / LARGE_BIT_FIELD_GROUP_COUNT < LARGE_BIT_FIELD_GROUP_COUNT := by
    unfold LARGE_BIT_FIELD_GROUP_COUNT
    unfold LARGE_BIT_FIELD_BIT_SIZE LARGE_BIT_FIELD_GROUP_COUNT at hi
    omega
  apply LargeBitField.large_state_eq
  · by_cases hz :
      s.bitfield (i / LARGE_BIT_FIELD_GROUP_COUNT) &&&
        usizeNot (1 <<< (i % LARGE_BIT_FIELD_GROUP_COUNT)) = 0
    · simp [LargeBitField.clear_bit, LargeBitField.clear_bit_unchecked, h, hz]
    · simp only [LargeBitField.clear_bit, LargeBitField.clear_bit_unchecked, h,
        if_pos, if_neg hz, ite_true]
      simp only [Nat.mul_zero]
      have hn0 : usizeNot 0 = 2 ^ 64 - 1 := by
        unfold usizeNot
        omega
      rw [hn0, Nat.and_pow_two_sub_one_of_lt_two_pow hlc]
  · intro j
    by_cases hz :
      s.bitfield (i / LARGE_BIT_FIELD_GROUP_COUNT) &&&
        usizeNot (1 <<< (i % LARGE_BIT_FIELD_GROUP_COUNT)) = 0 <;>
      simp [LargeBitField.clear_bit, LargeBitField.clear_bit_unchecked, h, hz]

/-- Lemma: `set_group_unchecked` with word 0 is a complete no-op. -/
theorem LargeBitField.set_group_unchecked_zero (t : LargeBitField) (g : Nat) :
    t.set_group_unchecked g 0 = t := by
  apply LargeBitField.large_state_eq
  · simp [LargeBitField.set_group_unchecked]
  · intro j
    simp only [LargeBitField.set_group_unchecked, Nat.or_zero]
    split <;> rfl

/-! ### Claim C6: idempotence of set and clear -/

/-- C6: on both bitfield variants, setting the same bit twice (or clearing
the same bit twice) produces exactly the state of a single call. -/
theorem spec_C6 (s : SmallBitField) (t : LargeBitField) (i j : Nat) :
    (s.set_bit i).set_bit i = s.set_bit i
    ∧ (s.clear_bit i).clear_bit i = s.clear_bit i
    ∧ (t.set_bit j).set_bit j = t.set_bit j
    ∧ (t.clear_bit j).clear_bit j = t.clear_bit j := by
  refine ⟨?_, ?_, ?_, ?_⟩
  · by_cases h : i < SmallBitField.SMALL_BIT_FIELD_BIT_SIZE
    · apply SmallBitField.small_state_eq
      simp [SmallBitField.set_bit, h, lor_lor_self]
    · simp [SmallBitField.set_bit, h]
  · by_cases h : i < SmallBitField.SMALL_BIT_FIELD_BIT_SIZE
    · apply SmallBitField.small_state_eq
      simp [SmallBitField.clear_bit, h, land_land_self]
    · simp [SmallBitField.clear_bit, h]
  · by_cases h : j / LargeBitField.LARGE_BIT_FIELD_GROUP_COUNT <
      LargeBitField.LARGE_BIT_FIELD_GROUP_COUNT
    · apply LargeBitField.large_state_eq
      · simp [LargeBitField.set_bit, h, lor_lor_self]
      · intro g
        simp only [LargeBitField.set_bit, h, if_pos, ite_true]
        by_cases hg : g = j / LargeBitField.LARGE_BIT_FIELD_GROUP_COUNT <;>
          simp [hg, lor_lor_self]
    · simp [LargeBitField.set_bit, h]
  · by_cases h : j / LargeBitField.LARGE_BIT_FIELD_GROUP_COUNT <
      LargeBitField.LARGE_BIT_FIELD_GROUP_COUNT
    · set top := j / LargeBitField.LARGE_BIT_FIELD_GROUP_COUNT with htop
      set m := usizeNot (1 <<< (j % LargeBitField.LARGE_BIT_FIELD_GROUP_COUNT)) with hm
      have hbf1 : (t.clear_bit j).bitfield top = t.bitfield top &&& m := by
        simp [LargeBitField.clear_bit, ← htop, ← hm, h]
      apply LargeBitField.large_state_eq
      · simp only [LargeBitField.clear_bit, ← htop, ← hm, h, if_pos, ite_true, hbf1,
          land_land_self]
        by_cases hz : t.bitfield top &&& m = 0
        · simp [hz, land_land_self]
        · simp [hz]
      · intro g
        simp only [LargeBitField.clear_bit, ← htop, ← hm, h, if_pos, ite_true, hbf1,
          land_land_self]
        by_cases hg : g = top <;> simp [hg]
    · simp [LargeBitField.clear_bit, h]

/-! ### Claim C7: out-of-range writes are no-ops -/

/-- C7: for indices at or beyond the capacity, the checked `set_bit` and
`clear_bit` leave the complete state unchanged on both variants. -/
theorem spec_C7 (s : SmallBitField) (t : LargeBitField) (i j : Nat)
    (hi : 64 ≤ i) (hj : 4096 ≤ j) :
    s.set_bit i = s ∧ s.clear_bit i = s ∧ t.set_bit j = t ∧ t.clear_bit j = t := by
  have hi' : ¬ i < SmallBitField.SMALL_BIT_FIELD_BIT_SIZE := by
    unfold SmallBitField.SMALL_BIT_FIELD_BIT_SIZE
    omega
  have hj' : ¬ j / LargeBitField.LARGE_BIT_FIELD_GROUP_COUNT <
      LargeBitField.LARGE_BIT_FIELD_GROUP_COUNT := by
    unfold LargeBitField.LARGE_BIT_FIELD_GROUP_COUNT
    omega
  refine ⟨?_, ?_, ?_, ?_⟩
  · simp [SmallBitField.set_bit, hi']
  · simp [SmallBitField.clear_bit, hi']
  · simp [LargeBitField.set_bit, hj']
  · simp [LargeBitField.clear_bit, hj']

/-- Witness for C7 at the capacity itself. -/
theorem spec_C7_witness :
    SmallBitField.new.set_bit 64 = SmallBitField.new
    ∧ SmallBitField.new.clear_bit 64 = SmallBitField.new
    ∧ LargeBitField.new.set_bit 4096 = LargeBitField.new
    ∧ LargeBitField.new.clear_bit 4096 = LargeBitField.new :=
  spec_C7 SmallBitField.new LargeBitField.new 64 4096 (by omega) (by omega)

/-! ### Claim C8: empty construction and out-of-range reads -/

/-- C8: freshly constructed bitfields are empty with `None` lowest/highest,
and `test_bit(capacity)` returns `None` on every state. -/
theorem spec_C8 :
    SmallBitField.new.is_empty = true
    ∧ SmallBitField.new.get_lowest_set_bit = none
    ∧ SmallBitField.new.get_highest_set_bit = none
    ∧ LargeBitField.new.is_empty = true
    ∧ LargeBitField.new.get_lowest_set_bit = none
    ∧ LargeBitField.new.get_highest_set_bit = none
    ∧ (∀ s : SmallBitField, s.test_bit 64 = none)
    ∧ (∀ t : LargeBitField, t.test_bit 4096 = none) := by
  refine ⟨rfl, rfl, rfl, rfl, rfl, rfl, ?_, ?_⟩
  · intro s
    simp [SmallBitField.test_bit, SmallBitField.SMALL_BIT_FIELD_BIT_SIZE]
  · intro t
    simp [LargeBitField.test_bit, LargeBitField.LARGE_BIT_FIELD_BIT_SIZE,
      LargeBitField.LARGE_BIT_FIELD_GROUP_COUNT]

/-! ### Claim C10: setting a group with word 0 changes nothing -/

/-- C10: `set_group(g, 0)` and `set_group_unchecked(g, 0)` leave the whole
state (group word and layer cache) unchanged: the branch-free cache update
contributes `(1 << g) * 0 = 0`. -/
theorem spec_C10 (t : LargeBitField) (g : Nat) (hg : g < 64) :
    t.set_group g 0 = t ∧ t.set_group_unchecked g 0 = t := by
  constructor
  · unfold LargeBitField.set_group
    rw [if_pos (by unfold LargeBitField.LARGE_BIT_FIELD_GROUP_COUNT; omega)]
    exact LargeBitField.set_group_unchecked_zero t g
  · exact LargeBitField.set_group_unchecked_zero t g

/-- Witness for C10 at a concrete state and group. -/
theorem spec_C10_witness :
    (LargeBitField.new.set_bit 100).set_group 5 0 = LargeBitField.new.set_bit 100
    ∧ (LargeBitField.new.set_bit 100).set_group_unchecked 5 0 =
      LargeBitField.new.set_bit 100 :=
  spec_C10 (LargeBitField.new.set_bit 100) 5 (by omega)

/-! ### Projection lemmas for the large-bitfield mutators -/

theorem LargeBitField.set_bit_layer_cache (s : LargeBitField) (i : Nat)
    (h : i / LARGE_BIT_FIELD_GROUP_COUNT < LARGE_BIT_FIELD_GROUP_COUNT) :
    (s.set_bit i).layer_cache =
      s.layer_cache ||| (1 <<< (i / LARGE_BIT_FIELD_GROUP_COUNT)) := by
  simp [LargeBitField.set_bit, h]

theorem LargeBitField.set_bit_bitfield (s : LargeBitField) (i j : Nat)
    (h : i / LARGE_BIT_FIELD_GROUP_COUNT < LARGE_BIT_FIELD_GROUP_COUNT) :
    (s.set_bit i).bitfield j =
      if j = i / LARGE_BIT_FIELD_GROUP_COUNT then
        s.bitfield j ||| (1 <<< (i % LARGE_BIT_FIELD_GROUP_COUNT))
      else s.bitfield j := by
  simp [LargeBitField.set_bit, h]

theorem LargeBitField.clear_bit_layer_cache (s : LargeBitField) (i : Nat)
    (h : i / LARGE_BIT_FIELD_GROUP_COUNT < LARGE_BIT_FIELD_GROUP_COUNT) :
    (s.clear_bit i).layer_cache =
      if s.bitfield (i / LARGE_BIT_FIELD_GROUP_COUNT) &&&
          usizeNot (1 <<< (i % LARGE_BIT_FIELD_GROUP_COUNT)) = 0 then
        s.layer_cache &&& usizeNot (1 <<< (i / LARGE_BIT_FIELD_GROUP_COUNT))
      else s.layer_cache := by
  simp [LargeBitField.clear_bit, h]

theorem LargeBitField.clear_bit_bitfield (s : LargeBitField) (i j : Nat)
    (h : i / LARGE_BIT_FIELD_GROUP_COUNT < LARGE_BIT_FIELD_GROUP_COUNT) :
    (s.clear_bit i).bitfield j =
      if j = i / LARGE_BIT_FIELD_GROUP_COUNT then
        s.bitfield j &&& usizeNot (1 <<< (i % LARGE_BIT_FIELD_GROUP_COUNT))
      else s.bitfield j := by
  by_cases hj : j = i / LARGE_BIT_FIELD_GROUP_COUNT
  · simp [LargeBitField.clear_bit, h, hj]
  · simp [LargeBitField.clear_bit, h, hj]

theorem LargeBitField.set_group_unchecked_layer_cache (s : LargeBitField)
    (g f : Nat) : (s.set_group_unchecked g f).layer_cache =
      s.layer_cache ||| (1 <<< g) * (if f ≠ 0 then 1 else 0) := rfl

theorem LargeBitField.set_group_unchecked_bitfield (s : LargeBitField)
    (g f j : Nat) : (s.set_group_unchecked g f).bitfield j =
      if j = g then s.bitfield j ||| f else s.bitfield j := rfl

theorem LargeBitField.clear_group_unchecked_layer_cache (s : LargeBitField)
    (g f : Nat) : (s.clear_group_unchecked g f).layer_cache =
      s.layer_cache &&&
        usizeNot ((1 <<< g) * (if s.bitfield g &&& usizeNot f = 0 then 1 else 0)) := rfl

theorem LargeBitField.clear_group_unchecked_bitfield (s : LargeBitField)
    (g f j : Nat) : (s.clear_group_unchecked g f).bitfield j =
      if j = g then s.bitfield j &&& usizeNot f else s.bitfield j := rfl

/-! ### Preservation of the layer-cache invariant and well-formedness -/

theorem LargeBitField.new_Inv : LargeBitField.new.Inv := by
  intro g _
  simp [LargeBitField.new]

theorem LargeBitField.new_WF : LargeBitField.new.WF := by
  constructor
  · simp [LargeBitField.new]
  · intro g _
    simp [LargeBitField.new]

theorem LargeBitField.set_bit_preserves (s : LargeBitField) (i : Nat)
    (hInv : s.Inv) (hWF : s.WF) : (s.set_bit i).Inv ∧ (s.set_bit i).WF := by
  obtain ⟨hlc, hbf⟩ := hWF
  by_cases h : i / LARGE_BIT_FIELD_GROUP_COUNT < LARGE_BIT_FIELD_GROUP_COUNT
  · have h64 : i / LARGE_BIT_FIELD_GROUP_COUNT < 64 := by
      simpa [LargeBitField.LARGE_BIT_FIELD_GROUP_COUNT] using h
    have hbot : i % LARGE_BIT_FIELD_GROUP_COUNT < 64 := by
      simp [LargeBitField.LARGE_BIT_FIELD_GROUP_COUNT]
      omega
    constructor
    · intro g hg
      rw [LargeBitField.set_bit_layer_cache s i h,
        LargeBitField.set_bit_bitfield s i g h, Nat.one_shiftLeft,
        Nat.one_shiftLeft, Nat.testBit_or, Nat.testBit_two_pow]
      by_cases hne : g = i / LARGE_BIT_FIELD_GROUP_COUNT
      · simp [hne, lor_two_pow_ne_zero]
      · have hne' : ¬ i / LARGE_BIT_FIELD_GROUP_COUNT = g := fun he => hne he.symm
        simp only [if_neg hne, decide_eq_false hne', Bool.or_false]
        exact hInv g hg
    · constructor
      · rw [LargeBitField.set_bit_layer_cache s i h, Nat.one_shiftLeft]
        exact Nat.or_lt_two_pow hlc (Nat.pow_lt_pow_right (by omega) h64)
      · intro g hg
        rw [LargeBitField.set_bit_bitfield s i g h, Nat.one_shiftLeft]
        by_cases hne : g = i / LARGE_BIT_FIELD_GROUP_COUNT
        · rw [if_pos hne]
          exact Nat.or_lt_two_pow (hbf g hg) (Nat.pow_lt_pow_right (by omega) hbot)
        · rw [if_neg hne]
          exact hbf g hg
  · have hs : s.set_bit i = s := by
      simp [LargeBitField.set_bit, h]
    rw [hs]
    exact ⟨hInv, hlc, hbf⟩

theorem LargeBitField.clear_bit_preserves (s : LargeBitField) (i : Nat)
    (hInv : s.Inv) (hWF : s.WF) : (s.clear_bit i).Inv ∧ (s.clear_bit i).WF := by
  obtain ⟨hlc, hbf⟩ := hWF
  by_cases h : i / LARGE_BIT_FIELD_GROUP_COUNT < LARGE_BIT_FIELD_GROUP_COUNT
  · have h64 : i / LARGE_BIT_FIELD_GROUP_COUNT < 64 := by
      simpa [LargeBitField.LARGE_BIT_FIELD_GROUP_COUNT] using h
    by_cases hz : s.bitfield (i / LARGE_BIT_FIELD_GROUP_COUNT) &&&
        usizeNot (1 <<< (i % LARGE_BIT_FIELD_GROUP_COUNT)) = 0
    · constructor
      · intro g hg
        rw [LargeBitField.clear_bit_layer_cache s i h, if_pos hz,
          LargeBitField.clear_bit_bitfield s i g h, Nat.one_shiftLeft,
          land_usizeNot_two_pow_testBit _ _ _ h64 hg]
        rcases eq_or_ne g (i / LARGE_BIT_FIELD_GROUP_COUNT) with rfl | hne
        · simp [hz]
        · simp only [if_neg hne]
          exact hInv g hg
      · constructor
        · rw [LargeBitField.clear_bit_layer_cache s i h, if_pos hz]
          exact Nat.and_lt_two_pow _ (usizeNot_lt _)
        · intro g hg
          rw [LargeBitField.clear_bit_bitfield s i g h]
          rcases eq_or_ne g (i / LARGE_BIT_FIELD_GROUP_COUNT) with rfl | hne
          · rw [if_pos rfl]
            exact Nat.and_lt_two_pow _ (usizeNot_lt _)
          · rw [if_neg hne]
            exact hbf g hg
    · constructor
      · intro g hg
        rw [LargeBitField.clear_bit_layer_cache s i h, if_neg hz,
          LargeBitField.clear_bit_bitfield s i g h]
        by_cases hne : g = i / LARGE_BIT_FIELD_GROUP_COUNT
        · rw [if_pos hne]
          constructor
          · intro _
            rw [hne]
            exact hz
          · intro _
            have hbfne : s.bitfield g ≠ 0 := by
              intro h0
              rw [hne] at h0
              rw [h0, Nat.zero_and] at hz
              exact hz rfl
            exact (hInv g hg).mpr hbfne
        · rw [if_neg hne]
          exact hInv g hg
      · constructor
        · rw [LargeBitField.clear_bit_layer_cache s i h, if_neg hz]
          exact hlc
        · intro g hg
          rw [LargeBitField.clear_bit_bitfield s i g h]
          rcases eq_or_ne g (i / LARGE_BIT_FIELD_GROUP_COUNT) with rfl | hne
          · rw [if_pos rfl]
            exact Nat.and_lt_two_pow _ (usizeNot_lt _)
          · rw [if_neg hne]
            exact hbf g hg
  · have hs : s.clear_bit i = s := by
      simp [LargeBitField.clear_bit, h]
    rw [hs]
    exact ⟨hInv, hlc, hbf⟩

theorem LargeBitField.set_group_unchecked_preserves (s : LargeBitField)
    (g f : Nat) (hg : g < 64) (hf : f < 2 ^ 64) (hInv : s.Inv) (hWF : s.WF) :
    (s.set_group_unchecked g f).Inv ∧ (s.set_group_unchecked g f).WF := by
  obtain ⟨hlc, hbf⟩ := hWF
  by_cases hfz : f = 0
  · rw [hfz, LargeBitField.set_group_unchecked_zero]
    exact ⟨hInv, hlc, hbf⟩
  · constructor
    · intro g' hg'
      rw [LargeBitField.set_group_unchecked_layer_cache,
        LargeBitField.set_group_unchecked_bitfield, if_pos hfz, Nat.mul_one,
        Nat.one_shiftLeft, Nat.testBit_or, Nat.testBit_two_pow]
      rcases eq_or_ne g' g with rfl | hne
      · simp only [if_pos rfl, decide_eq_true_eq]
        constructor
        · intro _ hor
          exact hfz ((lor_eq_zero_iff _ _).mp hor).2
        · intro _
          simp
      · simp only [if_neg hne, decide_eq_false (Ne.symm hne), Bool.or_false]
        exact hInv g' hg'
    · constructor
      · rw [LargeBitField.set_group_unchecked_layer_cache, if_pos hfz,
          Nat.mul_one, Nat.one_shiftLeft]
        exact Nat.or_lt_two_pow hlc (Nat.pow_lt_pow_right (by omega) hg)
      · intro g' hg'
        rw [LargeBitField.set_group_unchecked_bitfield]
        by_cases hne : g' = g
        · rw [if_pos hne]
          exact Nat.or_lt_two_pow (hbf g' hg') hf
        · rw [if_neg hne]
          exact hbf g' hg'

theorem LargeBitField.clear_group_unchecked_preserves (s : LargeBitField)
    (g f : Nat) (hg : g < 64) (hf : f < 2 ^ 64) (hInv : s.Inv) (hWF : s.WF) :
    (s.clear_group_unchecked g f).Inv ∧ (s.clear_group_unchecked g f).WF := by
  obtain ⟨hlc, hbf⟩ := hWF
  by_cases hz : s.bitfield g &&& usizeNot f = 0
  · constructor
    · intro g' hg'
      rw [LargeBitField.clear_group_unchecked_layer_cache, if_pos hz,
        Nat.mul_one, LargeBitField.clear_group_unchecked_bitfield,
        Nat.one_shiftLeft, land_usizeNot_two_pow_testBit _ _ _ hg hg']
      rcases eq_or_ne g' g with rfl | hne
      · simp [hz]
      · simp only [if_neg hne]
        exact hInv g' hg'
    · constructor
      · rw [LargeBitField.clear_group_unchecked_layer_cache]
        exact Nat.and_lt_two_pow _ (usizeNot_lt _)
      · intro g' hg'
        rw [LargeBitField.clear_group_unchecked_bitfield]
        by_cases hne : g' = g
        · rw [if_pos hne]
          exact Nat.and_lt_two_pow _ (usizeNot_lt _)
        · rw [if_neg hne]
          exact hbf g' hg'
  · have hn0 : usizeNot 0 = 2 ^ 64 - 1 := by
      unfold usizeNot
      omega
    have hlc' : (s.clear_group_unchecked g f).layer_cache = s.layer_cache := by
      rw [LargeBitField.clear_group_unchecked_layer_cache, if_neg hz,
        Nat.mul_zero, hn0, Nat.and_pow_two_sub_one_of_lt_two_pow hlc]
    constructor
    · intro g' hg'
      rw [hlc', LargeBitField.clear_group_unchecked_bitfield]
      rcases eq_or_ne g' g with rfl | hne
      · rw [if_pos rfl]
        constructor
        · intro _
          exact hz
        · intro _
          have hbfne : s.bitfield g' ≠ 0 := by
            intro h0
            rw [h0, Nat.zero_and] at hz
            exact hz rfl
          exact (hInv g' hg').mpr hbfne
      · rw [if_neg hne]
        exact hInv g' hg'
    · constructor
      · rw [hlc']
        exact hlc
      · intro g' hg'
        rw [LargeBitField.clear_group_unchecked_bitfield]
        by_cases hne : g' = g
        · rw [if_pos hne]
          exact Nat.and_lt_two_pow _ (usizeNot_lt _)
        · rw [if_neg hne]
          exact hbf g' hg'

theorem LargeBitField.set_field_aux_preserves (s : LargeBitField)
    (values : Nat → Nat) (hv : ∀ j, values j < 2 ^ 64) (hInv : s.Inv)
    (hWF : s.WF) : ∀ n, n ≤ 64 →
    (LargeBitField.set_field_aux s values n).Inv ∧
    (LargeBitField.set_field_aux s values n).WF := by
  intro n
  induction n with
  | zero => exact fun _ => ⟨hInv, hWF⟩
  | succ n ih =>
    intro hn
    obtain ⟨ih1, ih2⟩ := ih (by omega)
    exact LargeBitField.set_group_unchecked_preserves _ n (values n) (by omega)
      (hv n) ih1 ih2

theorem LargeBitField.clear_field_aux_preserves (s : LargeBitField)
    (values : Nat → Nat) (hv : ∀ j, values j < 2 ^ 64) (hInv : s.Inv)
    (hWF : s.WF) : ∀ n, n ≤ 64 →
    (LargeBitField.clear_field_aux s values n).Inv ∧
    (LargeBitField.clear_field_aux s values n).WF := by
  intro n
  induction n with
  | zero => exact fun _ => ⟨hInv, hWF⟩
  | succ n ih =>
    intro hn
    obtain ⟨ih1, ih2⟩ := ih (by omega)
    exact LargeBitField.clear_group_unchecked_preserves _ n (values n) (by omega)
      (hv n) ih1 ih2

/-- Every state reachable from `new` by the public mutators satisfies the
layer-cache invariant and well-formedness. -/
theorem LargeBitField.reachable_Inv_WF (s : LargeBitField)
    (h : LargeBitField.Reachable s) : s.Inv ∧ s.WF := by
  induction h with
  | new => exact ⟨LargeBitField.new_Inv, LargeBitField.new_WF⟩
  | set_bit s i _ ih => exact LargeBitField.set_bit_preserves s i ih.1 ih.2
  | clear_bit s i _ ih => exact LargeBitField.clear_bit_preserves s i ih.1 ih.2
  | set_bit_unchecked s i _ hi ih =>
    rw [LargeBitField.set_bit_unchecked_eq s i hi]
    exact LargeBitField.set_bit_preserves s i ih.1 ih.2
  | clear_bit_unchecked s i _ hi ih =>
    rw [LargeBitField.clear_bit_unchecked_eq s i hi ih.2.1]
    exact LargeBitField.clear_bit_preserves s i ih.1 ih.2
  | set_group s g f _ hf ih =>
    by_cases hg : g < LARGE_BIT_FIELD_GROUP_COUNT
    · unfold LargeBitField.set_group
      rw [if_pos hg]
      exact LargeBitField.set_group_unchecked_preserves s g f
        (by simpa [LargeBitField.LARGE_BIT_FIELD_GROUP_COUNT] using hg) hf ih.1 ih.2
    · unfold LargeBitField.set_group
      rw [if_neg hg]
      exact ih
  | clear_group s g f _ hf ih =>
    by_cases hg : g < LARGE_BIT_FIELD_GROUP_COUNT
    · unfold LargeBitField.clear_group
      rw [if_pos hg]
      exact LargeBitField.clear_group_unchecked_preserves s g f
        (by simpa [LargeBitField.LARGE_BIT_FIELD_GROUP_COUNT] using hg) hf ih.1 ih.2
    · unfold LargeBitField.clear_group
      rw [if_neg hg]
      exact ih
  | set_group_unchecked s g f _ hg hf ih =>
    exact LargeBitField.set_group_unchecked_preserves s g f hg hf ih.1 ih.2
  | clear_group_unchecked s g f _ hg hf ih =>
    exact LargeBitField.clear_group_unchecked_preserves s g f hg hf ih.1 ih.2
  | set_field s values _ hv ih =>
    exact LargeBitField.set_field_aux_preserves s values hv ih.1 ih.2 64
      (by omega)
  | clear_field s values _ hv ih =>
    exact LargeBitField.clear_field_aux_preserves s values hv ih.1 ih.2 64
      (by omega)

/-! ### Claim C2: the layer-cache invariant holds on all reachable states -/

/-- C2: in every state reachable from `new()` by any sequence of the public
mutating operations, bit `g` of the layer cache is set exactly when group
word `g` is non-zero, for every group `g < 64`. -/
theorem spec_C2 (s : LargeBitField) (h : LargeBitField.Reachable s) :
    ∀ g, g < 64 → (s.layer_cache.testBit g = true ↔ s.bitfield g ≠ 0) :=
  fun g hg => (LargeBitField.reachable_Inv_WF s h).1 g hg

/-- Witness for C2 on a concrete reachable state. -/
theorem spec_C2_witness :
    ((LargeBitField.new.set_bit 7).clear_bit 7).layer_cache.testBit 0 = true ↔
      ((LargeBitField.new.set_bit 7).clear_bit 7).bitfield 0 ≠ 0 :=
  spec_C2 _ (LargeBitField.Reachable.clear_bit _ 7
    (LargeBitField.Reachable.set_bit _ 7 LargeBitField.Reachable.new)) 0 (by omega)

/-! ### Claim C1: lowest/highest set bit of a large bitfield -/

theorem find_lowest_set_bit_eq (v : Nat) :
    find_lowest_set_bit v = Debruijin.get_lowest_set_bit_64 v := by
  simp [find_lowest_set_bit, count_leading_zeros_exists, Debruijin.get_lowest_set_bit]

theorem find_highest_set_bit_eq (v : Nat) :
    find_highest_set_bit v = Debruijin.get_highest_set_bit v := by
  simp [find_highest_set_bit, count_leading_zeros_exists]

theorem LargeBitField.test_bit_eq (s : LargeBitField) (i : Nat)
    (hi : i < LargeBitField.LARGE_BIT_FIELD_BIT_SIZE) :
    s.test_bit i = some ((s.bitfield (i / LargeBitField.LARGE_BIT_FIELD_GROUP_COUNT)).testBit
      (i % LargeBitField.LARGE_BIT_FIELD_GROUP_COUNT)) := by
  simp [LargeBitField.test_bit, hi, LargeBitField.test_bit_unchecked,
    Nat.one_shiftLeft, land_two_pow_bne_zero]

/-- A group word is zero when its layer-cache bit is clear. -/
theorem LargeBitField.group_zero_of_cache_clear (s : LargeBitField) (g : Nat)
    (hg : g < 64) (hInv : s.Inv) (hc : s.layer_cache.testBit g = false) :
    s.bitfield g = 0 := by
  by_contra hnz
  have := (hInv g hg).mpr hnz
  rw [hc] at this
  exact absurd this (by simp)

/-- C1: on every invariant-satisfying, well-formed large-bitfield state with
at least one set bit, `get_lowest_set_bit` returns `Some` of the minimum set
index and `get_highest_set_bit` returns `Some` of the maximum set index,
each computed as `group_index * WORD_BITS + intra_group_index` by
`get_lowest_set_bit_unchecked` / `get_highest_set_bit_unchecked`; and
`set_bit(7)` then `set_bit(9)` from empty gives lowest `Some 7`. -/
theorem spec_C1 (s : LargeBitField) (hInv : s.Inv) (hWF : s.WF)
    (hne : ∃ i, i < 4096 ∧ s.test_bit i = some true) :
    (∃ r, s.get_lowest_set_bit = some r ∧ r = s.get_lowest_set_bit_unchecked ∧
      s.test_bit r = some true ∧ ∀ j, j < r → s.test_bit j = some false)
    ∧ (∃ r, s.get_highest_set_bit = some r ∧ r = s.get_highest_set_bit_unchecked ∧
      s.test_bit r = some true ∧ ∀ j, r < j → j < 4096 → s.test_bit j = some false)
    ∧ ((LargeBitField.new.set_bit 7).set_bit 9).get_lowest_set_bit = some 7 := by
  obtain ⟨hlc64, hbf64⟩ := hWF
  have hgc : LargeBitField.LARGE_BIT_FIELD_GROUP_COUNT = 64 := rfl
  have hbs : LargeBitField.LARGE_BIT_FIELD_BIT_SIZE = 4096 := rfl
  obtain ⟨i0, hi0, hb0⟩ := hne
  rw [LargeBitField.test_bit_eq s i0 (by omega), hgc] at hb0
  have hb0' : (s.bitfield (i0 / 64)).testBit (i0 % 64) = true := by
    simpa using hb0
  have hgne : s.bitfield (i0 / 64) ≠ 0 := testBit_ne_zero hb0'
  have hlcbit : s.layer_cache.testBit (i0 / 64) = true :=
    (hInv (i0 / 64) (by omega)).mpr hgne
  have hlcne : s.layer_cache ≠ 0 := testBit_ne_zero hlcbit
  have hlcpos : 0 < s.layer_cache := Nat.pos_of_ne_zero hlcne
  have hemp : s.is_empty = false := by
    unfold LargeBitField.is_empty
    simp [hlcne]
  refine ⟨?_, ?_, ?_⟩
  · -- lowest set bit
    obtain ⟨hL64, hLbit, hLmin⟩ :=
      get_lowest_set_bit_64_spec s.layer_cache hlcpos hlc64
    have hWne : s.bitfield (Debruijin.get_lowest_set_bit_64 s.layer_cache) ≠ 0 :=
      (hInv _ hL64).mp hLbit
    obtain ⟨hB64, hBbit, hBmin⟩ := get_lowest_set_bit_64_spec _
      (Nat.pos_of_ne_zero hWne) (hbf64 _ hL64)
    have hunch : s.get_lowest_set_bit_unchecked =
        Debruijin.get_lowest_set_bit_64 s.layer_cache * 64 +
        Debruijin.get_lowest_set_bit_64
          (s.bitfield (Debruijin.get_lowest_set_bit_64 s.layer_cache)) := by
      unfold LargeBitField.get_lowest_set_bit_unchecked
      simp only [hgc, find_lowest_set_bit_eq]
    refine ⟨Debruijin.get_lowest_set_bit_64 s.layer_cache * 64 +
      Debruijin.get_lowest_set_bit_64
        (s.bitfield (Debruijin.get_lowest_set_bit_64 s.layer_cache)),
      ?_, hunch.symm, ?_, ?_⟩
    · unfold LargeBitField.get_lowest_set_bit
      rw [hemp]
      simp [hunch]
    · rw [LargeBitField.test_bit_eq s _ (by omega), hgc]
      have hdiv : (Debruijin.get_lowest_set_bit_64 s.layer_cache * 64 +
          Debruijin.get_lowest_set_bit_64
            (s.bitfield (Debruijin.get_lowest_set_bit_64 s.layer_cache))) / 64 =
          Debruijin.get_lowest_set_bit_64 s.layer_cache := by omega
      have hmod : (Debruijin.get_lowest_set_bit_64 s.layer_cache * 64 +
          Debruijin.get_lowest_set_bit_64
            (s.bitfield (Debruijin.get_lowest_set_bit_64 s.layer_cache))) % 64 =
          Debruijin.get_lowest_set_bit_64
            (s.bitfield (Debruijin.get_lowest_set_bit_64 s.layer_cache)) := by omega
      rw [hdiv, hmod, hBbit]
    · intro j hj
      rw [LargeBitField.test_bit_eq s j (by omega), hgc]
      have hcases : j / 64 < Debruijin.get_lowest_set_bit_64 s.layer_cache ∨
          (j / 64 = Debruijin.get_lowest_set_bit_64 s.layer_cache ∧
            j % 64 < Debruijin.get_lowest_set_bit_64
              (s.bitfield (Debruijin.get_lowest_set_bit_64 s.layer_cache))) := by
        omega
      rcases hcases with hlt | ⟨heq, hlt⟩
      · have hz : s.bitfield (j / 64) = 0 :=
          LargeBitField.group_zero_of_cache_clear s (j / 64) (by omega) hInv
            (hLmin (j / 64) hlt)
        rw [hz, Nat.zero_testBit]
      · rw [heq, hBmin (j % 64) hlt]
  · -- highest set bit
    obtain ⟨hH64, hHbit, hHmax⟩ :=
      get_highest_set_bit_spec s.layer_cache hlcpos hlc64
    have hWne : s.bitfield (Debruijin.get_highest_set_bit s.layer_cache) ≠ 0 :=
      (hInv _ hH64).mp hHbit
    obtain ⟨hB64, hBbit, hBmax⟩ := get_highest_set_bit_spec _
      (Nat.pos_of_ne_zero hWne) (hbf64 _ hH64)
    have hunch : s.get_highest_set_bit_unchecked =
        Debruijin.get_highest_set_bit s.layer_cache * 64 +
        Debruijin.get_highest_set_bit
          (s.bitfield (Debruijin.get_highest_set_bit s.layer_cache)) := by
      unfold LargeBitField.get_highest_set_bit_unchecked
      simp only [hgc, find_highest_set_bit_eq]
    refine ⟨Debruijin.get_highest_set_bit s.layer_cache * 64 +
      Debruijin.get_highest_set_bit
        (s.bitfield (Debruijin.get_highest_set_bit s.layer_cache)),
      ?_, hunch.symm, ?_, ?_⟩
    · unfold LargeBitField.get_highest_set_bit
      rw [hemp]
      simp [hunch]
    · rw [LargeBitField.test_bit_eq s _ (by omega), hgc]
      have hdiv : (Debruijin.get_highest_set_bit s.layer_cache * 64 +
          Debruijin.get_highest_set_bit
            (s.bitfield (Debruijin.get_highest_set_bit s.layer_cache))) / 64 =
          Debruijin.get_highest_set_bit s.layer_cache := by omega
      have hmod : (Debruijin.get_highest_set_bit s.layer_cache * 64 +
          Debruijin.get_highest_set_bit
            (s.bitfield (Debruijin.get_highest_set_bit s.layer_cache))) % 64 =
          Debruijin.get_highest_set_bit
            (s.bitfield (Debruijin.get_highest_set_bit s.layer_cache)) := by omega
      rw [hdiv, hmod, hBbit]
    · intro j hjlo hjhi
      rw [LargeBitField.test_bit_eq s j (by omega), hgc]
      have hcases : Debruijin.get_highest_set_bit s.layer_cache < j / 64 ∨
          (j / 64 = Debruijin.get_highest_set_bit s.layer_cache ∧
            Debruijin.get_highest_set_bit
              (s.bitfield (Debruijin.get_highest_set_bit s.layer_cache)) < j % 64) := by
        omega
      rcases hcases with hlt | ⟨heq, hlt⟩
      · have hz : s.bitfield (j / 64) = 0 :=
          LargeBitField.group_zero_of_cache_clear s (j / 64) (by omega) hInv
            (hHmax (j / 64) hlt)
        rw [hz, Nat.zero_testBit]
      · rw [heq, hBmax (j % 64) hlt]
  · decide

/-- Witness for C1 on the concrete state `set_bit(7); set_bit(9)`. -/
theorem spec_C1_witness :
    (∃ r, ((LargeBitField.new.set_bit 7).set_bit 9).get_lowest_set_bit = some r ∧
      r = ((LargeBitField.new.set_bit 7).set_bit 9).get_lowest_set_bit_unchecked ∧
      ((LargeBitField.new.set_bit 7).set_bit 9).test_bit r = some true ∧
      ∀ j, j < r → ((LargeBitField.new.set_bit 7).set_bit 9).test_bit j = some false)
    ∧ (∃ r, ((LargeBitField.new.set_bit 7).set_bit 9).get_highest_set_bit = some r ∧
      r = ((LargeBitField.new.set_bit 7).set_bit 9).get_highest_set_bit_unchecked ∧
      ((LargeBitField.new.set_bit 7).set_bit 9).test_bit r = some true ∧
      ∀ j, r < j → j < 4096 →
        ((LargeBitField.new.set_bit 7).set_bit 9).test_bit j = some false)
    ∧ ((LargeBitField.new.set_bit 7).set_bit 9).get_lowest_set_bit = some 7 :=
  spec_C1 ((LargeBitField.new.set_bit 7).set_bit 9)
    (by unfold LargeBitField.Inv; decide)
    (by unfold LargeBitField.WF; decide)
    ⟨7, by decide, by decide⟩

/-! ### Claim C9: single-bit mutation does not disturb other bits -/

/-- C9: on both variants, setting or clearing one in-range bit leaves the
value reported by `test_bit` at every other in-range index unchanged. -/
theorem spec_C9 (s : SmallBitField) (t : LargeBitField) (i j k l : Nat)
    (hij : i ≠ j) (hi : i < 64) (hj : j < 64)
    (hkl : k ≠ l) (hk : k < 4096) (hl : l < 4096) :
    (s.set_bit i).test_bit j = s.test_bit j
    ∧ (s.clear_bit i).test_bit j = s.test_bit j
    ∧ (t.set_bit k).test_bit l = t.test_bit l
    ∧ (t.clear_bit k).test_bit l = t.test_bit l := by
  have hgc : LargeBitField.LARGE_BIT_FIELD_GROUP_COUNT = 64 := rfl
  have hbs : LargeBitField.LARGE_BIT_FIELD_BIT_SIZE = 4096 := rfl
  have hkdiv : k / LargeBitField.LARGE_BIT_FIELD_GROUP_COUNT <
      LargeBitField.LARGE_BIT_FIELD_GROUP_COUNT := by
    rw [hgc]
    omega
  refine ⟨?_, ?_, ?_, ?_⟩
  · have h1 : (s.set_bit i).bitfield = s.bitfield ||| (1 <<< i) := by
      simp [SmallBitField.set_bit, SmallBitField.SMALL_BIT_FIELD_BIT_SIZE, hi]
    simp only [SmallBitField.test_bit, SmallBitField.test_bit_unchecked,
      SmallBitField.SMALL_BIT_FIELD_BIT_SIZE, hj, if_pos, ite_true, h1,
      Nat.one_shiftLeft, land_two_pow_bne_zero, Nat.testBit_or,
      Nat.testBit_two_pow]
    simp [hij]
  · have h1 : (s.clear_bit i).bitfield = s.bitfield &&& usizeNot (1 <<< i) := by
      simp [SmallBitField.clear_bit, SmallBitField.SMALL_BIT_FIELD_BIT_SIZE, hi]
    simp only [SmallBitField.test_bit, SmallBitField.test_bit_unchecked,
      SmallBitField.SMALL_BIT_FIELD_BIT_SIZE, hj, if_pos, ite_true, h1,
      Nat.one_shiftLeft, land_two_pow_bne_zero,
      land_usizeNot_two_pow_testBit _ i j hi hj]
    simp only [if_neg (Ne.symm hij)]
  · rw [LargeBitField.test_bit_eq _ l (by omega),
      LargeBitField.test_bit_eq t l (by omega),
      LargeBitField.set_bit_bitfield t k _ hkdiv]
    by_cases hdg : l / LargeBitField.LARGE_BIT_FIELD_GROUP_COUNT =
        k / LargeBitField.LARGE_BIT_FIELD_GROUP_COUNT
    · rw [if_pos hdg]
      rw [hgc] at hdg ⊢
      have hmod : k % 64 ≠ l % 64 := by omega
      rw [Nat.one_shiftLeft, Nat.testBit_or, Nat.testBit_two_pow,
        decide_eq_false hmod, Bool.or_false]
    · rw [if_neg hdg]
  · rw [LargeBitField.test_bit_eq _ l (by omega),
      LargeBitField.test_bit_eq t l (by omega),
      LargeBitField.clear_bit_bitfield t k _ hkdiv]
    by_cases hdg : l / LargeBitField.LARGE_BIT_FIELD_GROUP_COUNT =
        k / LargeBitField.LARGE_BIT_FIELD_GROUP_COUNT
    · rw [if_pos hdg]
      rw [hgc] at hdg ⊢
      have hmod : l % 64 ≠ k % 64 := by omega
      have hmlt : k % 64 < 64 := by omega
      have hllt : l % 64 < 64 := by omega
      rw [Nat.one_shiftLeft, land_usizeNot_two_pow_testBit _ _ _ hmlt hllt,
        if_neg hmod]
    · rw [if_neg hdg]

/-- Witness for C9 at concrete states and indices. -/
theorem spec_C9_witness :
    ((SmallBitField.new.set_bit 3).set_bit 5).test_bit 3 =
      (SmallBitField.new.set_bit 3).test_bit 3
    ∧ ((SmallBitField.new.set_bit 3).clear_bit 5).test_bit 3 =
      (SmallBitField.new.set_bit 3).test_bit 3
    ∧ ((LargeBitField.new.set_bit 70).set_bit 130).test_bit 70 =
      (LargeBitField.new.set_bit 70).test_bit 70
    ∧ ((LargeBitField.new.set_bit 70).clear_bit 130).test_bit 70 =
      (LargeBitField.new.set_bit 70).test_bit 70 :=
  spec_C9 (SmallBitField.new.set_bit 3) (LargeBitField.new.set_bit 70) 5 3 130 70
    (by omega) (by omega) (by omega) (by omega) (by omega) (by omega)

end RaztosUtil
